import Mathlib

/-!
Shallow embedding of the rparsec combinator library (src/src/lib.rs).

The Rust library defines parsers as functions `&str -> Result<(A, &str), E>`.
We model input strings as `List Char` and `Result` as `Except`.  Each Lean
definition below mirrors one Rust function, keeping its name where Lean
allows it (`then` is a Lean keyword, so it becomes `p_then`).
-/

namespace RParsec

/-- Mirrors Rust `enum ParseError { EOF(String), Mismatch(String, String),
Multiple(Vec<ParseError>) }`; strings are modelled as `List Char`. -/
inductive ParseError where
  | EOF : List Char → ParseError
  | Mismatch : List Char → List Char → ParseError
  | Multiple : List ParseError → ParseError
deriving Repr

/-- Mirrors Rust `struct Parser<A, E>(Box<dyn Fn(&str) -> Result<(A, &str), E>>)`:
a parser is a function from input to either an error or a value paired with
the remaining input. -/
def Parser (A E : Type) : Type := List Char → Except E (A × List Char)

/-- Mirrors Rust `bind` (lib.rs lines 39-50): run `a`; on success feed the
value to `f` and run the produced parser on the remainder; on failure
propagate the error. -/
def bind {A B E : Type} (a : Parser A E) (f : A → Parser B E) : Parser B E :=
  fun inp =>
    match a inp with
    | Except.ok (res, rest) => f res rest
    | Except.error e => Except.error e

/-- Mirrors Rust `then` (lib.rs lines 53-61): run `a`; on success discard the
value and run `b` on the remainder; on failure propagate the error.
Named `p_then` because `then` is a Lean keyword. -/
def p_then {A B E : Type} (a : Parser A E) (b : Parser B E) : Parser B E :=
  fun inp =>
    match a inp with
    | Except.ok (_, rest) => b rest
    | Except.error e => Except.error e

/-- Mirrors Rust `map` (lib.rs lines 64-69): run `a`; on success apply `f` to
the value, keeping the remainder; on failure propagate the error. -/
def map {A B E : Type} (a : Parser A E) (f : A → B) : Parser B E :=
  fun inp =>
    match a inp with
    | Except.ok (r, remaining) => Except.ok (f r, remaining)
    | Except.error e => Except.error e

/-- Mirrors Rust `p_as` (lib.rs lines 72-77): run `a`; on success replace the
value by the fixed `b`, keeping the remainder; on failure propagate the
error. -/
def p_as {A B E : Type} (a : Parser A E) (b : B) : Parser B E :=
  fun inp =>
    match a inp with
    | Except.ok (_, remaining) => Except.ok (b, remaining)
    | Except.error e => Except.error e

/-- Mirrors Rust `p_char` (lib.rs lines 81-91): take the next character of
the input; if it equals `c`, succeed with `c` and the rest; if it is a
different character, fail with `Mismatch(c, that character)`; if the input
is empty, fail with `EOF(c)`.  Rust's `c.to_string()` becomes `[c]`. -/
def p_char (c : Char) : Parser Char ParseError :=
  fun inp =>
    match inp with
    | next :: rest =>
      if next = c then Except.ok (c, rest)
      else Except.error (ParseError.Mismatch [c] [next])
    | [] => Except.error (ParseError.EOF [c])

/-- Models Rust's standard `str::strip_prefix` on `List Char`: if `s` is a
prefix of `inp`, return `some` of what remains after it, else `none`. -/
def stripPref : List Char → List Char → Option (List Char)
  | [], inp => some inp
  | _ :: _, [] => none
  | c :: s, d :: inp => if c = d then stripPref s inp else none

/-- Mirrors Rust `p_str` (lib.rs lines 93-100): strip `s` from the front of
the input; on success return `s` and the remainder; otherwise fail with
`Mismatch(s, entire remaining input)`. -/
def p_str (s : List Char) : Parser (List Char) ParseError :=
  fun inp =>
    match stripPref s inp with
    | some remaining => Except.ok (s, remaining)
    | none => Except.error (ParseError.Mismatch s inp)

/-- Mirrors Rust `p_or` (lib.rs lines 102-119): try the left parser; on
success return its result; on failure try the right parser on the original
input; on success return its result; if both fail, fail with
`Multiple([left error, right error])`. -/
def p_or {A : Type} (left right : Parser A ParseError) : Parser A ParseError :=
  fun inp =>
    match left inp with
    | Except.ok a => Except.ok a
    | Except.error e =>
      match right inp with
      | Except.ok b => Except.ok b
      | Except.error e2 => Except.error (ParseError.Multiple [e, e2])

/-- Mirrors the `Scheme` enum of the Rust test `test_scheme`. -/
inductive Scheme where
  | HTTP
  | HTTPS
deriving Repr, DecidableEq

/-- The grammar of the Rust test `test_scheme` (lib.rs lines 126-137):
`(p_str "https" ^ HTTPS) | (p_str "http" ^ HTTP)`, where `^` is `p_as` and
`|` is `p_or`. -/
def scheme : Parser Scheme ParseError :=
  p_or (p_as (p_str ['h', 't', 't', 'p', 's']) Scheme.HTTPS)
    (p_as (p_str ['h', 't', 't', 'p']) Scheme.HTTP)

/-- A parser is suffix-sound when, whenever it succeeds, the remainder it
returns is a suffix of the input it was given. -/
def SuffixSound {A E : Type} (p : Parser A E) : Prop :=
  ∀ inp a rest, p inp = Except.ok (a, rest) → rest <:+ inp

section Theorems

open RParsec

/-- C1: for every pair of parsers `L` and `R` of the same value type and every
input, `p_or L R` returns exactly `L`'s result whenever `L` succeeds (so the
result does not depend on `R` at all), and when `L` fails, `R` is run on the
original input `inp` and `p_or`'s result equals `R`'s result whenever `R`
succeeds. -/
theorem or_left_biased {A : Type} (L R : Parser A ParseError) (inp : List Char) :
    (∀ res, L inp = Except.ok res → p_or L R inp = Except.ok res) ∧
    (∀ e res, L inp = Except.error e → R inp = Except.ok res →
      p_or L R inp = Except.ok res) := by
  constructor
  · intro res hL
    simp [p_or, hL]
  · intro e res hL hR
    simp [p_or, hL, hR]

/-- Witness for C1 at concrete parsers and inputs: the left branch succeeding
on `['c', 'a']` and, for the second conjunct, the left branch failing while
the right branch succeeds on `['h', 'a']`. -/
theorem or_left_biased_witness :
    p_or (p_char 'c') (p_char 'h') ['c', 'a'] = Except.ok ('c', ['a']) ∧
    p_or (p_char 'c') (p_char 'h') ['h', 'a'] = Except.ok ('h', ['a']) := by
  constructor
  · exact (or_left_biased (p_char 'c') (p_char 'h') ['c', 'a']).1 ('c', ['a']) rfl
  · exact (or_left_biased (p_char 'c') (p_char 'h') ['h', 'a']).2
      (ParseError.Mismatch ['c'] ['h']) ('h', ['a']) rfl rfl

/-- C2: for every character `c`, `p_char c` succeeds on input starting with
`c`, consuming exactly that character and returning `c` with the rest as
remainder; on input starting with `d ≠ c` it fails with
`Mismatch(expected = c, found = d)`; on empty input it fails with
`EOF(expected = c)`. -/
theorem char_spec (c d : Char) (rest : List Char) :
    p_char c (c :: rest) = Except.ok (c, rest) ∧
    (d ≠ c → p_char c (d :: rest) =
      Except.error (ParseError.Mismatch [c] [d])) ∧
    p_char c [] = Except.error (ParseError.EOF [c]) := by
  refine ⟨?_, ?_, rfl⟩
  · simp [p_char]
  · intro hne
    simp [p_char, hne]

/-- Witness for C2 at `c = 'a'`, `d = 'b'`, `rest = ['z']`. -/
theorem char_spec_witness :
    p_char 'a' ['a', 'z'] = Except.ok ('a', ['z']) ∧
    p_char 'a' ['b', 'z'] = Except.error (ParseError.Mismatch ['a'] ['b']) ∧
    p_char 'a' [] = Except.error (ParseError.EOF ['a']) :=
  ⟨(char_spec 'a' 'b' ['z']).1,
    (char_spec 'a' 'b' ['z']).2.1 (by decide),
    (char_spec 'a' 'b' ['z']).2.2⟩

/-- C3: on an input where both branches of `p_or` fail, with errors `eL` and
`eR`, `p_or` fails with `Multiple([eL, eR])`, the two branch errors in
left-to-right order, unaltered; in particular
`p_or (p_char 'c') (p_char 'h')` on `"xello"` fails with
`Multiple([Mismatch('c','x'), Mismatch('h','x')])`. -/
theorem or_both_fail {A : Type} (L R : Parser A ParseError) (inp : List Char)
    (eL eR : ParseError) :
    (L inp = Except.error eL → R inp = Except.error eR →
      p_or L R inp = Except.error (ParseError.Multiple [eL, eR])) ∧
    p_or (p_char 'c') (p_char 'h') ['x', 'e', 'l', 'l', 'o'] =
      Except.error (ParseError.Multiple
        [ParseError.Mismatch ['c'] ['x'], ParseError.Mismatch ['h'] ['x']]) := by
  constructor
  · intro hL hR
    simp [p_or, hL, hR]
  · rfl

/-- Witness for C3: both branches of `p_or (p_char 'c') (p_char 'h')` fail on
`"xello"`, so the combined parser fails with the two errors aggregated in
order. -/
theorem or_both_fail_witness :
    p_or (p_char 'c') (p_char 'h') ['x', 'e', 'l', 'l', 'o'] =
      Except.error (ParseError.Multiple
        [ParseError.Mismatch ['c'] ['x'], ParseError.Mismatch ['h'] ['x']]) :=
  (or_both_fail (p_char 'c') (p_char 'h') ['x', 'e', 'l', 'l', 'o']
    (ParseError.Mismatch ['c'] ['x']) (ParseError.Mismatch ['h'] ['x'])).1 rfl rfl

/-- C4: for every non-alternation combinator applied to a first parser `P`
(`p_then P Q`, `bind P f`, `map P g`, `p_as P k`) and every input on which
`P` fails with error `e`, the combined parser fails with exactly `e`,
unchanged; and on `P`'s success, `p_then` and `bind` run the next parser on
`P`'s remainder. -/
theorem seq_error_propagation {A B : Type} (P : Parser A ParseError)
    (Q : Parser B ParseError) (f : A → Parser B ParseError) (g : A → B) (k : B)
    (inp : List Char) (e : ParseError) :
    (P inp = Except.error e →
      p_then P Q inp = Except.error e ∧
      bind P f inp = Except.error e ∧
      map P g inp = Except.error e ∧
      p_as P k inp = Except.error e) ∧
    (∀ a rest, P inp = Except.ok (a, rest) →
      p_then P Q inp = Q rest ∧ bind P f inp = f a rest) := by
  constructor
  · intro hP
    refine ⟨?_, ?_, ?_, ?_⟩ <;> simp [p_then, bind, map, p_as, hP]
  · intro a rest hP
    exact ⟨by simp [p_then, hP], by simp [bind, hP]⟩

/-- Witness for C4 at concrete parsers: `P = p_char 'a'` failing on `"b"`
(every combinator returns exactly `P`'s `Mismatch` error), and succeeding on
`"az"` (`p_then` and `bind` continue from the remainder `"z"`). -/
theorem seq_error_propagation_witness :
    (p_then (p_char 'a') (p_char 'z') ['b'] =
        Except.error (ParseError.Mismatch ['a'] ['b']) ∧
      bind (p_char 'a') (fun _ => p_char 'z') ['b'] =
        Except.error (ParseError.Mismatch ['a'] ['b']) ∧
      map (p_char 'a') (fun c => c) ['b'] =
        Except.error (ParseError.Mismatch ['a'] ['b']) ∧
      p_as (p_char 'a') 'q' ['b'] =
        Except.error (ParseError.Mismatch ['a'] ['b'])) ∧
    (p_then (p_char 'a') (p_char 'z') ['a', 'z'] = p_char 'z' ['z'] ∧
      bind (p_char 'a') (fun _ => p_char 'z') ['a', 'z'] = p_char 'z' ['z']) :=
  ⟨(seq_error_propagation (p_char 'a') (p_char 'z') (fun _ => p_char 'z')
      (fun c => c) 'q' ['b'] (ParseError.Mismatch ['a'] ['b'])).1 rfl,
    (seq_error_propagation (p_char 'a') (p_char 'z') (fun _ => p_char 'z')
      (fun c => c) 'q' ['a', 'z'] (ParseError.Mismatch ['a'] ['b'])).2
      'a' ['z'] rfl⟩

/-- `stripPref s inp` succeeds exactly when `s` is a prefix of `inp`, and then
returns the input with the first `s.length` characters removed. -/
lemma stripPref_eq_some {s inp r : List Char} :
    stripPref s inp = some r ↔ s <+: inp ∧ r = inp.drop s.length := by
  induction s generalizing inp with
  | nil =>
    simp [stripPref]
    exact eq_comm
  | cons c s ih =>
    cases inp with
    | nil => simp [stripPref]
    | cons d inp =>
      by_cases h : c = d
      · subst h
        simp [stripPref, ih, List.cons_prefix_cons]
      · simp [stripPref, h, List.cons_prefix_cons]

/-- `stripPref s inp` fails exactly when `s` is not a prefix of `inp`. -/
lemma stripPref_eq_none {s inp : List Char} :
    stripPref s inp = none ↔ ¬ s <+: inp := by
  constructor
  · intro h hpre
    have : stripPref s inp = some (inp.drop s.length) :=
      stripPref_eq_some.mpr ⟨hpre, rfl⟩
    simp [h] at this
  · intro hnot
    cases heq : stripPref s inp with
    | none => rfl
    | some r => exact absurd (stripPref_eq_some.mp heq).1 hnot

/-- C5: `p_str s` succeeds if and only if the input begins with the exact
sequence `s`, in which case it consumes exactly `s.length` characters and
returns `s` as the value with the rest of the input as remainder; on any
failure (input too short or content differing) it fails with
`Mismatch(expected = s, found = the entire remaining input)`, never with
`EOF`. -/
theorem literal_spec (s inp : List Char) :
    (s <+: inp → p_str s inp = Except.ok (s, inp.drop s.length)) ∧
    (¬ s <+: inp → p_str s inp = Except.error (ParseError.Mismatch s inp)) := by
  constructor
  · intro hpre
    have h := stripPref_eq_some.mpr ⟨hpre, rfl⟩
    simp [p_str, h]
  · intro hnot
    have h := stripPref_eq_none.mpr hnot
    simp [p_str, h]

/-- Witness for C5: `p_str "ht"` succeeds on `"htz"` consuming two
characters; it fails with a `Mismatch` carrying the whole remaining input
both on `"h"` (too short) and on `"hz"` (wrong continuation). -/
theorem literal_spec_witness :
    p_str ['h', 't'] ['h', 't', 'z'] = Except.ok (['h', 't'], ['z']) ∧
    p_str ['h', 't'] ['h'] =
      Except.error (ParseError.Mismatch ['h', 't'] ['h']) ∧
    p_str ['h', 't'] ['h', 'z'] =
      Except.error (ParseError.Mismatch ['h', 't'] ['h', 'z']) :=
  ⟨(literal_spec ['h', 't'] ['h', 't', 'z']).1 (by decide),
    (literal_spec ['h', 't'] ['h']).2 (by decide),
    (literal_spec ['h', 't'] ['h', 'z']).2 (by decide)⟩

/-- C6: `map P id` returns exactly the same result as `P` on every input;
more generally, for every function `f`, `map P f` on `P`'s success returns
`(f value, remainder)` with the remainder identical to `P`'s remainder, and
on `P`'s failure returns `P`'s error unchanged. -/
theorem map_spec {A B : Type} (P : Parser A ParseError) (f : A → B)
    (inp : List Char) :
    map P (fun a => a) inp = P inp ∧
    (∀ a rest, P inp = Except.ok (a, rest) →
      map P f inp = Except.ok (f a, rest)) ∧
    (∀ e, P inp = Except.error e → map P f inp = Except.error e) := by
  refine ⟨?_, ?_, ?_⟩
  · cases hP : P inp with
    | ok res => cases res with
      | mk a rest => simp [map, hP]
    | error e => simp [map, hP]
  · intro a rest hP
    simp [map, hP]
  · intro e hP
    simp [map, hP]

/-- Witness for C6 at `P = p_char 'a'`, `f` the constant `3`, on inputs
`"az"` (success) and `"b"` (failure). -/
theorem map_spec_witness :
    map (p_char 'a') (fun c => c) ['a', 'z'] = p_char 'a' ['a', 'z'] ∧
    map (p_char 'a') (fun _ => (3 : Nat)) ['a', 'z'] = Except.ok (3, ['z']) ∧
    map (p_char 'a') (fun _ => (3 : Nat)) ['b'] =
      Except.error (ParseError.Mismatch ['a'] ['b']) :=
  ⟨(map_spec (p_char 'a') (fun _ => (3 : Nat)) ['a', 'z']).1,
    (map_spec (p_char 'a') (fun _ => (3 : Nat)) ['a', 'z']).2.1 'a' ['z'] rfl,
    (map_spec (p_char 'a') (fun _ => (3 : Nat)) ['b']).2.2
      (ParseError.Mismatch ['a'] ['b']) rfl⟩

/-- C7: `p_as P k` returns exactly the same result as `map P` with the
constant function returning `k`, on every input; in particular on `P`'s
success it returns `k` regardless of `P`'s produced value, keeping `P`'s
remainder, and on `P`'s failure it propagates `P`'s error unchanged. -/
theorem as_spec {A B : Type} (P : Parser A ParseError) (k : B)
    (inp : List Char) :
    p_as P k inp = map P (fun _ => k) inp ∧
    (∀ a rest, P inp = Except.ok (a, rest) →
      p_as P k inp = Except.ok (k, rest)) ∧
    (∀ e, P inp = Except.error e → p_as P k inp = Except.error e) := by
  refine ⟨?_, ?_, ?_⟩
  · cases hP : P inp with
    | ok res => cases res with
      | mk a rest => simp [p_as, map, hP]
    | error e => simp [p_as, map, hP]
  · intro a rest hP
    simp [p_as, hP]
  · intro e hP
    simp [p_as, hP]

/-- Witness for C7 at `P = p_char 'a'`, `k = 7`, on inputs `"az"` (success:
the value is `7`, the remainder is `P`'s) and `"b"` (failure: `P`'s error). -/
theorem as_spec_witness :
    p_as (p_char 'a') (7 : Nat) ['a', 'z'] =
      map (p_char 'a') (fun _ => (7 : Nat)) ['a', 'z'] ∧
    p_as (p_char 'a') (7 : Nat) ['a', 'z'] = Except.ok (7, ['z']) ∧
    p_as (p_char 'a') (7 : Nat) ['b'] =
      Except.error (ParseError.Mismatch ['a'] ['b']) :=
  ⟨(as_spec (p_char 'a') (7 : Nat) ['a', 'z']).1,
    (as_spec (p_char 'a') (7 : Nat) ['a', 'z']).2.1 'a' ['z'] rfl,
    (as_spec (p_char 'a') (7 : Nat) ['b']).2.2
      (ParseError.Mismatch ['a'] ['b']) rfl⟩

/-- C8: the grammar `p_or (p_as (p_str "https") HTTPS) (p_as (p_str "http")
HTTP)` of the Rust test returns `Ok((HTTP, ""))` on `"http"`,
`Ok((HTTPS, ""))` on `"https"`, and fails on `"ftp"` with
`Multiple([Mismatch("https","ftp"), Mismatch("http","ftp")])`. -/
theorem scheme_spec :
    scheme ['h', 't', 't', 'p'] = Except.ok (Scheme.HTTP, []) ∧
    scheme ['h', 't', 't', 'p', 's'] = Except.ok (Scheme.HTTPS, []) ∧
    scheme ['f', 't', 'p'] = Except.error (ParseError.Multiple
      [ParseError.Mismatch ['h', 't', 't', 'p', 's'] ['f', 't', 'p'],
        ParseError.Mismatch ['h', 't', 't', 'p'] ['f', 't', 'p']]) :=
  ⟨rfl, rfl, rfl⟩

/-- C9: every parser built from the primitives `p_char` and `p_str` by the
combinators `p_then`, `bind`, `map`, `p_as` and `p_or` is suffix-sound:
whenever it succeeds, the returned remainder is a suffix of the input.
Stated compositionally: both primitives are suffix-sound, and each
combinator preserves suffix-soundness of its arguments. -/
theorem suffix_sound {A B : Type} (c : Char) (s : List Char)
    (P : Parser A ParseError) (Q : Parser B ParseError)
    (f : A → Parser B ParseError) (g : A → B) (k : B)
    (L R : Parser A ParseError) :
    SuffixSound (p_char c) ∧
    SuffixSound (p_str s) ∧
    (SuffixSound P → SuffixSound Q → SuffixSound (p_then P Q)) ∧
    (SuffixSound P → (∀ a, SuffixSound (f a)) → SuffixSound (bind P f)) ∧
    (SuffixSound P → SuffixSound (map P g)) ∧
    (SuffixSound P → SuffixSound (p_as P k)) ∧
    (SuffixSound L → SuffixSound R → SuffixSound (p_or L R)) := by
  refine ⟨?_, ?_, ?_, ?_, ?_, ?_, ?_⟩
  · intro inp a rest h
    cases inp with
    | nil => simp [p_char] at h
    | cons next tl =>
      by_cases hc : next = c
      · simp [p_char, hc] at h
        rw [← h.2]
        exact List.suffix_cons next tl
      · simp [p_char, hc] at h
  · intro inp a rest h
    cases heq : stripPref s inp with
    | none => simp [p_str, heq] at h
    | some r =>
      simp [p_str, heq] at h
      have hd := (stripPref_eq_some.mp heq).2
      rw [← h.2, hd]
      exact List.drop_suffix s.length inp
  · intro hP hQ inp a rest h
    cases hp : P inp with
    | ok res =>
      cases res with
      | mk a0 rest0 =>
        have hmid : rest0 <:+ inp := hP inp a0 rest0 hp
        simp [p_then, hp] at h
        exact (hQ rest0 a rest h).trans hmid
    | error e => simp [p_then, hp] at h
  · intro hP hf inp a rest h
    cases hp : P inp with
    | ok res =>
      cases res with
      | mk a0 rest0 =>
        have hmid : rest0 <:+ inp := hP inp a0 rest0 hp
        simp [bind, hp] at h
        exact (hf a0 rest0 a rest h).trans hmid
    | error e => simp [bind, hp] at h
  · intro hP inp a rest h
    cases hp : P inp with
    | ok res =>
      cases res with
      | mk a0 rest0 =>
        simp [map, hp] at h
        rw [← h.2]
        exact hP inp a0 rest0 hp
    | error e => simp [map, hp] at h
  · intro hP inp a rest h
    cases hp : P inp with
    | ok res =>
      cases res with
      | mk a0 rest0 =>
        simp [p_as, hp] at h
        rw [← h.2]
        exact hP inp a0 rest0 hp
    | error e => simp [p_as, hp] at h
  · intro hL hR inp a rest h
    cases hl : L inp with
    | ok res =>
      simp [p_or, hl] at h
      subst h
      exact hL inp a rest hl
    | error e =>
      cases hr : R inp with
      | ok res =>
        simp [p_or, hl, hr] at h
        subst h
        exact hR inp a rest hr
      | error e2 => simp [p_or, hl, hr] at h

/-- Witness for C9: the alternation `p_or (p_char 'z') (p_char 'h')` is
suffix-sound (its component soundness hypotheses discharged by the primitive
conjuncts of the same theorem), so its remainder on the concrete input
`"za"` is a suffix of that input. -/
theorem suffix_sound_witness : ['a'] <:+ ['z', 'a'] := by
  have hz := (suffix_sound 'z' [] (p_char 'z') (p_char 'z')
    (fun _ => p_char 'z') (fun x => x) 'q' (p_char 'z') (p_char 'h')).1
  have hh := (suffix_sound 'h' [] (p_char 'h') (p_char 'h')
    (fun _ => p_char 'h') (fun x => x) 'q' (p_char 'h') (p_char 'h')).1
  have hor := (suffix_sound 'z' [] (p_char 'z') (p_char 'z')
    (fun _ => p_char 'z') (fun x => x) 'q' (p_char 'z')
    (p_char 'h')).2.2.2.2.2.2 hz hh
  exact hor ['z', 'a'] 'z' ['a'] rfl

/-- C10: `p_str []` (the literal parser of the empty sequence) always
succeeds on every input, including the empty one, returning the empty list
as its value and the entire input unchanged as the remainder. -/
theorem empty_literal_succeeds (inp : List Char) :
    p_str [] inp = Except.ok ([], inp) := rfl

end Theorems

end RParsec
